import Mathlib

/-!
# Animated sprites demo (`js/06_animated_sprites.js`)

A shallow embedding of the player / coin / game-world logic of the canvas demo.

Numbers are elements of an arbitrary linearly ordered field `K` (JavaScript
doubles without rounding); where rounding decides a statement it is modelled
by `roundDouble` on the rationals.  The classes `Vec`, `Rect`, `AnimatedObject` and the
function `boxOverlap` live in a library file that is not part of the sources;
their operations are collected in the record `Lib` and passed explicitly.
-/

namespace AnimatedSprites

/-! ## Library primitives -/

/-- Modelled from the spec: the class `Vec` is missing from the sources; the
spec's `Vector2` is a pair `{x, y}` of real numbers. -/
@[ext]
structure Vec (K : Type) where
  x : K
  y : K

/-- Modelled from the spec: the class `Rect` is missing from the sources; the
spec's `Rect` is `{x, y, width, height}`. -/
structure Rect (K : Type) where
  x : K
  y : K
  width : K
  height : K

/-- Modelled from the spec: the class `AnimatedObject` is missing from the
sources.  The fields the source reads and writes (`position`, `width`,
`height`) are explicit; everything else the class keeps (colour, type, sprite
sheet, frame-animation state) is the component `anim` of an arbitrary type. -/
structure AnimatedObject (K A : Type) where
  position : Vec K
  width : K
  height : K
  anim : A

/-- Direction tokens: the keys of the table `playerMovement`. -/
inductive Direction where
  | up
  | down
  | left
  | right
  | idle
  deriving DecidableEq, Repr

/-- The two values of the `axis` field of `playerMovement`. -/
inductive Axis where
  | x
  | y
  deriving DecidableEq, Repr

/-- An entry of the table `playerMovement`. -/
structure Movement (K : Type) where
  axis : Axis
  direction : K
  frames : Int × Int
  repeats : Bool
  duration : K

/-- The `Coin` class: an animated object with a key list and the `collected`
flag that `checkCollisions` sets (absent, hence falsy, on a fresh coin). -/
structure Coin (K A : Type) extends AnimatedObject K A where
  keys : List Direction
  collected : Bool

/-- The `Player` class. -/
structure Player (K A : Type) extends AnimatedObject K A where
  velocity : Vec K
  keys : List Direction
  previousDirection : Direction
  currentDirection : Direction

/-- The `Game` class. -/
structure Game (K A : Type) where
  player : Player K A
  coins : List (Coin K A)
  nextSpawnTime : K
  totalTime : K

/-- Modelled from the spec: the operations of the missing library file that the
source calls.  `normalize` is `Vec.normalize`; `construct colour type sheetCols`
is the hidden state left by the `AnimatedObject` constructor; `setSprite`,
`setAnimation start end repeat duration` and `updateFrame dt` are the methods
of `AnimatedObject`, which by the spec touch only the sprite and the
frame-animation state; `boxOverlap` is the axis-aligned overlap test. -/
structure Lib (K A : Type) where
  normalize : Vec K → Vec K
  construct : String → String → Nat → A
  setSprite : String → Rect K → A → A
  setAnimation : Int → Int → Bool → K → A → A
  updateFrame : K → A → A
  boxOverlap : AnimatedObject K A → AnimatedObject K A → Bool

section Defs

variable {K A : Type} [LinearOrderedField K]

/-- Modelled from the spec: `Vec.plus`, the spec's vector addition. -/
def Vec.plus (v w : Vec K) : Vec K := ⟨v.x + w.x, v.y + w.y⟩

/-- Modelled from the spec: `Vec.times`, the spec's scalar multiply. -/
def Vec.times (v : Vec K) (s : K) : Vec K := ⟨v.x * s, v.y * s⟩

/-- Squared length of a vector. -/
def Vec.normSq (v : Vec K) : K := v.x * v.x + v.y * v.y

/-- Modelled from the spec: what `Vec.normalize` is specified to do: the zero
vector goes to the zero vector, any other vector is divided by its length. -/
def IsNormalize (normalize : Vec K → Vec K) : Prop :=
  ∀ v : Vec K,
    (v.x = 0 ∧ v.y = 0 → normalize v = ⟨0, 0⟩) ∧
    (¬ (v.x = 0 ∧ v.y = 0) →
      ∃ len : K, 0 < len ∧ len * len = v.normSq ∧ normalize v = ⟨v.x / len, v.y / len⟩)

/-! ## Global constants -/

def canvasWidth : K := 800
def canvasHeight : K := 600
def playerSpeed : K := 1 / 2
def animationDelay : K := 200
def maxCoins : Nat := 5
def minSpawnTime : K := 1000
def maxSpawnTime : K := 3000

/-- The table `playerMovement`. -/
def playerMovement : Direction → Movement K
  | .up => ⟨.y, -1, (60, 69), true, animationDelay⟩
  | .down => ⟨.y, 1, (40, 49), true, animationDelay⟩
  | .left => ⟨.x, -1, (50, 59), true, animationDelay⟩
  | .right => ⟨.x, 1, (70, 79), true, animationDelay⟩
  | .idle => ⟨.y, 0, (0, 2), true, animationDelay⟩

/-! ## Coin -/

/-- `Coin.update(deltaTime)`: only `updateFrame`. -/
def Coin.update (L : Lib K A) (deltaTime : K) (c : Coin K A) : Coin K A :=
  { c with anim := L.updateFrame deltaTime c.anim }

/-! ## Player -/

/-- The assignment `v[axis] += d`. -/
def Vec.addAxis (v : Vec K) (axis : Axis) (d : K) : Vec K :=
  match axis with
  | .x => { v with x := v.x + d }
  | .y => { v with y := v.y + d }

/-- The loop of `setVelocity`: the sum of the contributions of the held keys. -/
def keySum (keys : List Direction) : Vec K :=
  keys.foldl (fun v key => v.addAxis (playerMovement key : Movement K).axis
    (playerMovement key : Movement K).direction) ⟨0, 0⟩

/-- `Player.setVelocity()`. -/
def Player.setVelocity (L : Lib K A) (p : Player K A) : Player K A :=
  { p with velocity := (L.normalize (keySum p.keys)).times playerSpeed }

/-- The first half of `setMovementAnimation`: the direction chosen for a
velocity. -/
def movementDirection (velocity : Vec K) : Direction :=
  if abs velocity.y > abs velocity.x then
    if velocity.y > 0 then .down
    else if velocity.y < 0 then .up
    else .idle
  else
    if velocity.x > 0 then .right
    else if velocity.x < 0 then .left
    else .idle

/-- `Player.setMovementAnimation()`. -/
def Player.setMovementAnimation (L : Lib K A) (p : Player K A) : Player K A :=
  let currentDirection := movementDirection p.velocity
  let anim :=
    if currentDirection ≠ p.previousDirection then
      L.setAnimation (playerMovement currentDirection : Movement K).frames.1
        (playerMovement currentDirection : Movement K).frames.2
        (playerMovement currentDirection : Movement K).repeats
        (playerMovement currentDirection : Movement K).duration p.anim
    else p.anim
  { p with currentDirection := currentDirection, anim := anim,
           previousDirection := currentDirection }

/-- `constrainToCanvas()` on a position, for an object of the given size. -/
def constrainPosition (width height : K) (position : Vec K) : Vec K :=
  if position.y < 0 then { position with y := 0 }
  else if position.y + height > canvasHeight then { position with y := canvasHeight - height }
  else if position.x < 0 then { position with x := 0 }
  else if position.x + width > canvasWidth then { position with x := canvasWidth - width }
  else position

/-- `Player.constrainToCanvas()`. -/
def Player.constrainToCanvas (p : Player K A) : Player K A :=
  { p with position := constrainPosition p.width p.height p.position }

/-- `Player.update(deltaTime)`. -/
def Player.update (L : Lib K A) (deltaTime : K) (p : Player K A) : Player K A :=
  let p1 := p.setVelocity L
  let p2 := p1.setMovementAnimation L
  let p3 : Player K A := { p2 with position := p2.position.plus (p2.velocity.times deltaTime) }
  let p4 := p3.constrainToCanvas
  { p4 with anim := L.updateFrame deltaTime p4.anim }

/-! ## Game -/

/-- `Game.initObjects()`. -/
def Game.initObjects (L : Lib K A) : Game K A :=
  { player :=
      { position := ⟨canvasWidth / 2, canvasHeight / 2⟩
        width := 32
        height := 32
        anim := L.setAnimation 7 7 false animationDelay
          (L.setSprite "../assets/sprites/link_sprite_sheet.png" ⟨0, 0, 120, 130⟩
            (L.construct "red" "player" 10))
        velocity := ⟨0, 0⟩
        keys := []
        previousDirection := .down
        currentDirection := .down }
    coins := []
    nextSpawnTime := 0
    totalTime := 0 }

/-- The coin loop of `Game.update`, `for (i = coins.length - 1; i >= 0; i--)`.
The first argument is `i + 1`.  Reading `coins[i]` past the end gives
`undefined`, whose `collected` cannot be read: the result is `none`. -/
def Game.updateCoins (L : Lib K A) (deltaTime : K) :
    Nat → List (Coin K A) → Option (List (Coin K A))
  | 0, coins => some coins
  | i + 1, coins =>
    match coins[i]? with
    | none => none
    | some coin =>
      if coin.collected then Game.updateCoins L deltaTime i (coins.eraseIdx i)
      else Game.updateCoins L deltaTime i (coins.set i (coin.update L deltaTime))

/-- `Game.spawnCoin()`, with the two values drawn from `Math.random()`. -/
def Game.spawnCoin (L : Lib K A) (r1 r2 : K) (g : Game K A) : Game K A :=
  let coin : Coin K A :=
    { position := ⟨r1 * (canvasWidth - 32), r2 * (canvasHeight - 32)⟩
      width := 32
      height := 32
      anim := L.setAnimation 0 7 true animationDelay
        (L.setSprite "../assets/sprites/coin_gold.png" ⟨0, 0, 32, 32⟩
          (L.construct "gold" "coin" 8))
      keys := []
      collected := false }
  { g with coins := g.coins ++ [coin] }

/-- `Game.getRandomSpawnTime()`, with the value drawn from `Math.random()`. -/
def getRandomSpawnTime (r : K) : K :=
  minSpawnTime + r * (maxSpawnTime - minSpawnTime)

/-- The body of the loop of `checkCollisions`, for one coin. -/
def Game.checkCoin (L : Lib K A) (player : Player K A) (coin : Coin K A) : Coin K A :=
  if !coin.collected && L.boxOverlap player.toAnimatedObject coin.toAnimatedObject then
    { coin with collected := true }
  else coin

/-- `Game.checkCollisions()`. -/
def Game.checkCollisions (L : Lib K A) (g : Game K A) : Game K A :=
  { g with coins := g.coins.map (Game.checkCoin L g.player) }

/-- The spawn step of `Game.update`. -/
def Game.spawnStep (L : Lib K A) (r1 r2 r3 : K) (g : Game K A) : Game K A :=
  if g.totalTime ≥ g.nextSpawnTime ∧ g.coins.length < maxCoins then
    let g1 := g.spawnCoin L r1 r2
    { g1 with nextSpawnTime := g1.totalTime + getRandomSpawnTime r3 }
  else g

/-- `Game.update(deltaTime)` (the second definition in the class, the one in
force); `r1 r2 r3` are the next three values of `Math.random()`, drawn only
when a coin is spawned. -/
def Game.update (L : Lib K A) (deltaTime r1 r2 r3 : K) (g : Game K A) : Option (Game K A) :=
  let g1 : Game K A := { g with totalTime := g.totalTime + deltaTime }
  let g2 : Game K A := { g1 with player := g1.player.update L deltaTime }
  match Game.updateCoins L deltaTime g2.coins.length g2.coins with
  | none => none
  | some coins =>
    let g3 : Game K A := { g2 with coins := coins }
    some ((g3.spawnStep L r1 r2 r3).checkCollisions L)

/-- `Game.add_key(direction)`. -/
def Game.add_key (direction : Direction) (g : Game K A) : Game K A :=
  if ¬ g.player.keys.contains direction then
    { g with player := { g.player with keys := g.player.keys ++ [direction] } }
  else g

/-- `Game.del_key(direction)`: `indexOf` gives the first position, `-1` being
`none`. -/
def Game.del_key (direction : Direction) (g : Game K A) : Game K A :=
  match g.player.keys.indexOf? direction with
  | some index => { g with player := { g.player with keys := g.player.keys.eraseIdx index } }
  | none => g

/-- The state of the game after the first three stages of `Game.update`: time
accumulated, player updated, collected coins pruned and the others updated. -/
def Game.afterCoins (L : Lib K A) (deltaTime : K) (g : Game K A) : Game K A :=
  { g with
    totalTime := g.totalTime + deltaTime
    player := g.player.update L deltaTime
    coins := (g.coins.filter fun c => !c.collected).map (Coin.update L deltaTime) }

/-! ## Frame driver -/

/-- Modelled from the spec: the canvas context and `AnimatedObject.draw` are
missing from the sources.  The canvas is the list of the commands it has
received: clearing a rectangle, or blitting the sprite of an object (which by
the spec changes no state). -/
inductive DrawCmd (K A : Type) where
  | clearRect (x y width height : K)
  | sprite (object : AnimatedObject K A)

/-- `Game.draw(ctx)`. -/
def Game.draw (g : Game K A) (ctx : List (DrawCmd K A)) : List (DrawCmd K A) :=
  let ctx1 := ctx ++ [DrawCmd.clearRect 0 0 canvasWidth canvasHeight]
  let ctx2 := g.coins.foldl
    (fun ctx coin => if !coin.collected then ctx ++ [DrawCmd.sprite coin.toAnimatedObject]
      else ctx) ctx1
  ctx2 ++ [DrawCmd.sprite g.player.toAnimatedObject]

/-- The calls made by the body of `drawScene`, as recorded in the call log. -/
inductive Call (K A : Type) where
  | clearRect
  | draw (game : Game K A)
  | update (deltaTime : K) (game : Game K A)
  | requestAnimationFrame

/-- The globals `oldTime`, `game` and `ctx`, with a log of the calls made by
`drawScene` (each with the game state it was made on). -/
structure Scene (K A : Type) where
  oldTime : Option K
  game : Game K A
  ctx : List (DrawCmd K A)
  calls : List (Call K A)

/-- One display refresh: the timestamp handed to `drawScene` and the next
three values of `Math.random()`. -/
structure Tick (K : Type) where
  newTime : K
  r1 : K
  r2 : K
  r3 : K

/-- The globals after `game = new Game()` in `main`: `oldTime` is undefined. -/
def Scene.initial (L : Lib K A) : Scene K A :=
  { oldTime := none, game := Game.initObjects L, ctx := [], calls := [] }

/-- `drawScene(newTime)`. -/
def drawScene (L : Lib K A) (tick : Tick K) (s : Scene K A) : Option (Scene K A) :=
  let oldTime := match s.oldTime with
    | none => tick.newTime
    | some t => t
  let deltaTime := tick.newTime - oldTime
  let ctx1 := s.ctx ++ [DrawCmd.clearRect 0 0 canvasWidth canvasHeight]
  let ctx2 := s.game.draw ctx1
  match Game.update L deltaTime tick.r1 tick.r2 tick.r3 s.game with
  | none => none
  | some game =>
    some { oldTime := some tick.newTime
           game := game
           ctx := ctx2
           calls := s.calls ++ [Call.clearRect, Call.draw s.game,
             Call.update deltaTime s.game, Call.requestAnimationFrame] }

/-- The frames scheduled through `requestAnimationFrame(drawScene)`, one
`drawScene` call per tick. -/
def drawSceneRun (L : Lib K A) : List (Tick K) → Scene K A → Option (Scene K A)
  | [], s => some s
  | tick :: ticks, s =>
    match drawScene L tick s with
    | none => none
    | some s1 => drawSceneRun L ticks s1

/-- The `deltaTime` argument of a logged `Game.update` call. -/
def Call.deltaTime? : Call K A → Option K
  | .update deltaTime _ => some deltaTime
  | _ => none

/-- The `deltaTime` values passed to `Game.update`, in call order. -/
def Scene.deltaTimes (s : Scene K A) : List K := s.calls.filterMap Call.deltaTime?

/-- The differences `drawScene` computes for a list of timestamps, starting
from the given `oldTime`. -/
def deltaTimesFrom : Option K → List K → List K
  | _, [] => []
  | none, t :: ts => (t - t) :: deltaTimesFrom (some t) ts
  | some old, t :: ts => (t - old) :: deltaTimesFrom (some t) ts

/-! ## Double arithmetic -/

/-- Rounding of a number to the nearest integer, ties to the even one. -/
def roundHalfEven (q : ℚ) : ℚ :=
  if q - ⌊q⌋ < 1 / 2 then ⌊q⌋
  else if q - ⌊q⌋ > 1 / 2 then ⌊q⌋ + 1
  else if ⌊q⌋ % 2 = 0 then ⌊q⌋ else ⌊q⌋ + 1

/-- Rounding of a positive number to 53 significant bits: the number is scaled
by powers of two into `[2^52, 2^53)`, rounded to an integer and scaled back.
The first argument bounds the number of scalings. -/
def roundPositive : Nat → ℚ → ℚ
  | 0, q => q
  | fuel + 1, q =>
    if q < 2 ^ 52 then roundPositive fuel (q * 2) / 2
    else if 2 ^ 53 ≤ q then roundPositive fuel (q / 2) * 2
    else roundHalfEven q

/-- The double nearest to an exact result, ties to even, as JavaScript rounds
the result of every arithmetic operation on numbers (IEEE 754 binary64;
overflow to `Infinity` and subnormal numbers are left out). -/
def roundDouble (q : ℚ) : ℚ :=
  if q = 0 then 0 else if q < 0 then - roundPositive 2100 (-q) else roundPositive 2100 q

/-- The differences `drawScene` computes for a list of timestamps when
`newTime - oldTime` is a subtraction of doubles: `deltaTimesFrom` with every
difference rounded. -/
def deltaTimesDouble : Option ℚ → List ℚ → List ℚ
  | _, [] => []
  | none, t :: ts => roundDouble (t - t) :: deltaTimesDouble (some t) ts
  | some old, t :: ts => roundDouble (t - old) :: deltaTimesDouble (some t) ts

/-- The value `totalTime` reaches from 0 by `this.totalTime += deltaTime` in
double arithmetic, over a list of `deltaTime` values. -/
def totalTimeDouble (deltaTimes : List ℚ) : ℚ :=
  deltaTimes.foldl (fun totalTime deltaTime => roundDouble (totalTime + deltaTime)) 0

/-- The states reachable from `Game.initObjects` by calls of `Game.update`
(any `dt`, any random draws), `add_key` and `del_key`. -/
inductive Game.Reachable (L : Lib K A) : Game K A → Prop where
  | init : Game.Reachable L (Game.initObjects L)
  | update (deltaTime r1 r2 r3 : K) (g g' : Game K A) :
      Game.Reachable L g → Game.update L deltaTime r1 r2 r3 g = some g' → Game.Reachable L g'
  | add_key (direction : Direction) (g : Game K A) :
      Game.Reachable L g → Game.Reachable L (g.add_key direction)
  | del_key (direction : Direction) (g : Game K A) :
      Game.Reachable L g → Game.Reachable L (g.del_key direction)

/-- The states reachable by `add_key` and `del_key` calls from a game whose
player holds no key. -/
inductive Game.KeysReachable : Game K A → Prop where
  | start (g : Game K A) : g.player.keys = [] → Game.KeysReachable g
  | add_key (direction : Direction) (g : Game K A) :
      Game.KeysReachable g → Game.KeysReachable (g.add_key direction)
  | del_key (direction : Direction) (g : Game K A) :
      Game.KeysReachable g → Game.KeysReachable (g.del_key direction)

/-- What `checkCollisions` may do to one coin: everything but the `collected`
flag stays, and a set flag stays set. -/
def Coin.FlagRaised (c c' : Coin K A) : Prop :=
  c'.toAnimatedObject = c.toAnimatedObject ∧ c'.keys = c.keys ∧
    (c.collected = true → c'.collected = true)

/-- A library instance over the trivial hidden state, with `normalize` dividing
by the length computed with the given square root, no sprite state and no
overlap ever reported. -/
def Lib.simple (sqrt : K → K) : Lib K Unit :=
  { normalize := fun v => ⟨v.x / sqrt v.normSq, v.y / sqrt v.normSq⟩
    construct := fun _ _ _ => ()
    setSprite := fun _ _ a => a
    setAnimation := fun _ _ _ _ a => a
    updateFrame := fun _ a => a
    boxOverlap := fun _ _ => false }

/-- A 32 by 32 coin at the given position. -/
def coinAt (x y : K) (collected : Bool) : Coin K Unit :=
  { position := ⟨x, y⟩, width := 32, height := 32, anim := (), keys := [],
    collected := collected }

/-- A player of the given size at the given position, holding the given keys. -/
def playerAt (x y width height : K) (keys : List Direction) : Player K Unit :=
  { position := ⟨x, y⟩, width := width, height := height, anim := (),
    velocity := ⟨0, 0⟩, keys := keys, previousDirection := .down, currentDirection := .down }

/-- A library instance whose hidden state counts the calls of `setAnimation`. -/
def Lib.counting (sqrt : K → K) : Lib K Nat :=
  { normalize := fun v => ⟨v.x / sqrt v.normSq, v.y / sqrt v.normSq⟩
    construct := fun _ _ _ => 0
    setSprite := fun _ _ a => a
    setAnimation := fun _ _ _ _ a => a + 1
    updateFrame := fun _ a => a
    boxOverlap := fun _ _ => false }

/-- The player lies inside the canvas on both axes. -/
def Player.InCanvas (p : Player K A) : Prop :=
  0 ≤ p.position.x ∧ p.position.x + p.width ≤ canvasWidth ∧
    0 ≤ p.position.y ∧ p.position.y + p.height ≤ canvasHeight

/-- The number `m` is the magnitude (length) of the vector `v`. -/
def IsMagnitude (v : Vec K) (m : K) : Prop := 0 ≤ m ∧ m * m = v.normSq

end Defs

/-! ## Velocity -/

section Velocity

variable {K A : Type} [LinearOrderedField K]

theorem isNormalize_simple_sqrt : IsNormalize (Lib.simple Real.sqrt).normalize := by
  intro v
  constructor
  · rintro ⟨hx, hy⟩
    simp [Lib.simple, hx, hy]
  · intro hv
    have hpos : 0 < v.normSq := by
      unfold Vec.normSq
      by_cases hx : v.x = 0
      · have hy : v.y ≠ 0 := fun h => hv ⟨hx, h⟩
        have := mul_self_pos.mpr hy
        nlinarith [mul_self_nonneg v.x]
      · have := mul_self_pos.mpr hx
        nlinarith [mul_self_nonneg v.y]
    exact ⟨Real.sqrt v.normSq, Real.sqrt_pos.mpr hpos, Real.mul_self_sqrt hpos.le, rfl⟩

theorem foldl_addAxis (keys : List Direction) (v : Vec K) :
    keys.foldl (fun v key => v.addAxis (playerMovement key : Movement K).axis
      (playerMovement key : Movement K).direction) v
      = ⟨v.x + ((keys.count .right : K) - keys.count .left),
         v.y + ((keys.count .down : K) - keys.count .up)⟩ := by
  induction keys generalizing v with
  | nil => simp
  | cons key keys ih =>
    rw [List.foldl_cons, ih]
    cases key <;> ext <;> simp [playerMovement, Vec.addAxis, List.count_cons] <;> ring

theorem keySum_eq (keys : List Direction) :
    (keySum keys : Vec K) = ⟨(keys.count .right : K) - keys.count .left,
      (keys.count .down : K) - keys.count .up⟩ := by
  unfold keySum
  rw [foldl_addAxis]
  simp

theorem normSq_normalize_times (L : Lib K A) (hL : IsNormalize L.normalize) (v : Vec K)
    (hv : ¬ (v.x = 0 ∧ v.y = 0)) :
    ((L.normalize v).times playerSpeed).normSq = playerSpeed * playerSpeed := by
  obtain ⟨len, hpos, hlen, hn⟩ := (hL v).2 hv
  have hne : len ≠ 0 := hpos.ne.symm
  rw [hn]
  unfold Vec.normSq at hlen
  simp only [Vec.times, Vec.normSq]
  have h : v.x / len * playerSpeed * (v.x / len * playerSpeed)
      + v.y / len * playerSpeed * (v.y / len * playerSpeed)
      = (v.x * v.x + v.y * v.y) / (len * len) * (playerSpeed * playerSpeed) := by
    field_simp
    ring
  rw [h, ← hlen, div_self (mul_ne_zero hne hne), one_mul]

theorem playerSpeed_nonneg : (0 : K) ≤ playerSpeed := by
  unfold playerSpeed
  positivity

theorem keySum_ne_zero (keys : List Direction)
    (h : ¬ ((Direction.up ∈ keys ↔ Direction.down ∈ keys)
        ∧ (Direction.left ∈ keys ↔ Direction.right ∈ keys))) :
    ¬ ((keySum keys : Vec K).x = 0 ∧ (keySum keys : Vec K).y = 0) := by
  rw [keySum_eq]
  rintro ⟨hx, hy⟩
  simp only [sub_eq_zero, Nat.cast_inj] at hx hy
  apply h
  constructor
  · rw [← List.count_pos_iff, ← List.count_pos_iff, hy]
  · rw [← List.count_pos_iff, ← List.count_pos_iff, hx]

/-- C1 (as amended): with `Vec.normalize` as specified, for every key list in
which the held directions do not cancel (not both or neither of up/down
together with both or neither of left/right), `playerSpeed` is the magnitude
of the velocity after `setVelocity`; and for every key list whatsoever the
velocity has a magnitude, which never exceeds `playerSpeed`. -/
theorem setVelocity_magnitude (L : Lib K A) (hL : IsNormalize L.normalize) (p : Player K A) :
    (¬ ((Direction.up ∈ p.keys ↔ Direction.down ∈ p.keys)
          ∧ (Direction.left ∈ p.keys ↔ Direction.right ∈ p.keys)) →
        IsMagnitude (p.setVelocity L).velocity playerSpeed) ∧
    (∃ m, IsMagnitude (p.setVelocity L).velocity m) ∧
    (∀ m, IsMagnitude (p.setVelocity L).velocity m → m ≤ playerSpeed) := by
  have key : ∀ v : Vec K, IsMagnitude ((L.normalize v).times playerSpeed) playerSpeed ∨
      IsMagnitude ((L.normalize v).times playerSpeed) 0 := by
    intro v
    by_cases hv : v.x = 0 ∧ v.y = 0
    · right
      rw [(hL v).1 hv]
      simp [IsMagnitude, Vec.times, Vec.normSq]
    · left
      exact ⟨playerSpeed_nonneg, (normSq_normalize_times L hL v hv).symm⟩
  refine ⟨fun h => ⟨playerSpeed_nonneg, ?_⟩, ?_, ?_⟩
  · exact (normSq_normalize_times L hL _ (keySum_ne_zero p.keys h)).symm
  · rcases key (keySum p.keys) with h | h
    · exact ⟨_, h⟩
    · exact ⟨_, h⟩
  · rintro m ⟨hm0, hm⟩
    have hs : (0 : K) ≤ playerSpeed := playerSpeed_nonneg
    rcases key (keySum p.keys) with h | h
    · have h2 : m * m = playerSpeed * playerSpeed := by
        rw [hm]; exact h.2.symm
      exact le_of_eq ((mul_self_inj hm0 hs).mp h2)
    · have h2 : m * m = 0 := by
        rw [hm]; simpa using h.2.symm
      have : m = 0 := by simpa using h2
      rw [this]; exact hs

/-- C1, witness: holding `up` and `right` over the reals. -/
theorem setVelocity_magnitude_witness :
    IsMagnitude
      (Player.setVelocity (Lib.simple Real.sqrt)
        (playerAt 400 300 32 32 [.up, .right])).velocity
      (playerSpeed : ℝ) :=
  (setVelocity_magnitude (Lib.simple Real.sqrt) isNormalize_simple_sqrt
    (playerAt 400 300 32 32 [.up, .right])).1 (by decide)

/-- C1, counterexample: `up` and `down` held together is a non-empty subset of
the four directions, yet whenever `Vec.normalize` is as specified (as it is
for the real square root) the velocity after `setVelocity` is the zero vector,
whose magnitude is not `playerSpeed`. -/
theorem setVelocity_magnitude_counterexample :
    IsNormalize (Lib.simple Real.sqrt).normalize ∧
    (Player.setVelocity (Lib.simple Real.sqrt)
        (playerAt 400 300 32 32 [.up, .down])).velocity = ⟨0, 0⟩ ∧
    ¬ IsMagnitude
      (Player.setVelocity (Lib.simple Real.sqrt)
        (playerAt 400 300 32 32 [.up, .down])).velocity
      (playerSpeed : ℝ) := by
  have hv : (Player.setVelocity (Lib.simple Real.sqrt)
        (playerAt 400 300 32 32 [.up, .down])).velocity
      = (⟨0, 0⟩ : Vec ℝ) := by
    simp [Player.setVelocity, playerAt, keySum, playerMovement, Vec.addAxis, Lib.simple, Vec.times]
  refine ⟨isNormalize_simple_sqrt, hv, ?_⟩
  rw [hv]
  simp [IsMagnitude, Vec.normSq, playerSpeed]

end Velocity

/-! ## Player update and clamping -/

section Clamp

variable {K A : Type} [LinearOrderedField K]

theorem Player.update_position (L : Lib K A) (deltaTime : K) (p : Player K A) :
    (p.update L deltaTime).position
      = constrainPosition p.width p.height
          (p.position.plus (((L.normalize (keySum p.keys)).times playerSpeed).times deltaTime)) :=
  rfl

theorem normalize_right (L : Lib K A) (hL : IsNormalize L.normalize) :
    L.normalize (keySum [Direction.right]) = ⟨1, 0⟩ := by
  have hk : (keySum [Direction.right] : Vec K) = ⟨1, 0⟩ := by
    simp [keySum, playerMovement, Vec.addAxis]
  rw [hk]
  obtain ⟨len, hpos, hlen, hn⟩ := (hL ⟨1, 0⟩).2 (by simp)
  have h1 : len = 1 := by
    have h2 : len * len = 1 * 1 := by rw [hlen]; simp [Vec.normSq]
    exact (mul_self_inj hpos.le zero_le_one).mp h2
  rw [hn, h1]
  simp

/-- C6 (as amended): with `Vec.normalize` as specified, for a player holding
only `right`, with `0 <= y`, `y + h <= canvasHeight`,
`x + playerSpeed*dt + w > canvasWidth` and `0 <= x + playerSpeed*dt`,
`Player.update(dt)` leaves `position.x = canvasWidth - w` and `position.y = y`
(for every `dt`, in particular every `dt >= 0`). -/
theorem Player.update_clamp_right (L : Lib K A) (hL : IsNormalize L.normalize)
    (deltaTime : K) (p : Player K A) (hkeys : p.keys = [Direction.right])
    (hy0 : 0 ≤ p.position.y) (hy1 : p.position.y + p.height ≤ canvasHeight)
    (hover : p.position.x + playerSpeed * deltaTime + p.width > canvasWidth)
    (hx0 : 0 ≤ p.position.x + playerSpeed * deltaTime) :
    (p.update L deltaTime).position.x = canvasWidth - p.width ∧
    (p.update L deltaTime).position.y = p.position.y := by
  rw [Player.update_position, hkeys, normalize_right L hL]
  have hpos : p.position.plus (((⟨1, 0⟩ : Vec K).times playerSpeed).times deltaTime)
      = ⟨p.position.x + playerSpeed * deltaTime, p.position.y⟩ := by
    simp [Vec.plus, Vec.times]
  rw [hpos]
  unfold constrainPosition
  simp only
  rw [if_neg (not_lt.mpr hy0), if_neg (not_lt.mpr hy1), if_neg (not_lt.mpr hx0), if_pos hover]
  exact ⟨rfl, rfl⟩

/-- C6, witness: the player at `(798, 300)` of size 32 by 32 moving right for
16 ms ends at `x = 768`, `y = 300`. -/
theorem Player.update_clamp_right_witness :
    (Player.update (Lib.simple Real.sqrt) 16 (playerAt 798 300 32 32 [.right])).position.x = 768 ∧
    (Player.update (Lib.simple Real.sqrt) 16 (playerAt 798 300 32 32 [.right])).position.y
      = 300 := by
  have h := Player.update_clamp_right (Lib.simple Real.sqrt) isNormalize_simple_sqrt 16
    (playerAt 798 300 32 32 [.right]) rfl
    (by norm_num [playerAt]) (by norm_num [playerAt, canvasHeight])
    (by norm_num [playerAt, canvasWidth, playerSpeed])
    (by norm_num [playerAt, playerSpeed])
  refine ⟨?_, ?_⟩
  · rw [h.1]; norm_num [playerAt, canvasWidth]
  · rw [h.2]; rfl

/-- C6, counterexample: a player 1000 wide at `(-100, 300)` holding `right`,
`dt = 0`.  All the conditions of the claim hold, but the branch `x < 0` of
`constrainToCanvas` comes first and sets `x = 0`, not `canvasWidth - w = -200`. -/
theorem Player.update_clamp_right_counterexample :
    (playerAt (-100) 300 1000 32 [.right] : Player ℝ Unit).keys = [.right] ∧
    (0 : ℝ) ≤ (playerAt (-100) 300 1000 32 [.right] : Player ℝ Unit).position.y ∧
    (playerAt (-100) 300 1000 32 [.right] : Player ℝ Unit).position.y
      + (playerAt (-100) 300 1000 32 [.right] : Player ℝ Unit).height ≤ canvasHeight ∧
    (0 : ℝ) ≤ 0 ∧
    (playerAt (-100) 300 1000 32 [.right] : Player ℝ Unit).position.x + playerSpeed * 0
      + (playerAt (-100) 300 1000 32 [.right] : Player ℝ Unit).width > canvasWidth ∧
    (Player.update (Lib.simple Real.sqrt) 0 (playerAt (-100) 300 1000 32 [.right])).position.x
      = 0 ∧
    (Player.update (Lib.simple Real.sqrt) 0 (playerAt (-100) 300 1000 32 [.right])).position.x
      ≠ canvasWidth - (playerAt (-100) 300 1000 32 [.right] : Player ℝ Unit).width := by
  have hx : (Player.update (Lib.simple Real.sqrt) 0
      (playerAt (-100) 300 1000 32 [.right])).position.x = 0 := by
    rw [Player.update_position]
    simp [playerAt, Vec.plus, Vec.times, constrainPosition, canvasHeight]
    norm_num
  refine ⟨rfl, ?_, ?_, le_rfl, ?_, hx, ?_⟩
  · norm_num [playerAt]
  · norm_num [playerAt, canvasHeight]
  · norm_num [playerAt, canvasWidth, playerSpeed]
  · rw [hx]; norm_num [playerAt, canvasWidth]

/-- C10: `setMovementAnimation` sets `currentDirection` to `down` if
`|vy| > |vx|` and `vy > 0`, to `up` if `|vy| > |vx|` and `vy < 0`, and
otherwise (ties included) to `right` if `vx > 0`, `left` if `vx < 0`, `idle`
if `vx = 0`; these cases cover every velocity.  So `currentDirection` is
`idle` exactly for the zero velocity, and equal non-zero magnitudes give
`left` or `right`. -/
theorem Player.setMovementAnimation_direction (L : Lib K A) (p : Player K A) :
    (abs p.velocity.y > abs p.velocity.x ∧ p.velocity.y > 0 →
      (p.setMovementAnimation L).currentDirection = .down) ∧
    (abs p.velocity.y > abs p.velocity.x ∧ p.velocity.y < 0 →
      (p.setMovementAnimation L).currentDirection = .up) ∧
    (¬ abs p.velocity.y > abs p.velocity.x ∧ p.velocity.x > 0 →
      (p.setMovementAnimation L).currentDirection = .right) ∧
    (¬ abs p.velocity.y > abs p.velocity.x ∧ p.velocity.x < 0 →
      (p.setMovementAnimation L).currentDirection = .left) ∧
    (¬ abs p.velocity.y > abs p.velocity.x ∧ p.velocity.x = 0 →
      (p.setMovementAnimation L).currentDirection = .idle) ∧
    (abs p.velocity.y > abs p.velocity.x → p.velocity.y > 0 ∨ p.velocity.y < 0) ∧
    ((p.setMovementAnimation L).currentDirection = .idle ↔
      p.velocity.x = 0 ∧ p.velocity.y = 0) ∧
    (abs p.velocity.y = abs p.velocity.x → p.velocity.x ≠ 0 →
      (p.setMovementAnimation L).currentDirection = .left ∨
      (p.setMovementAnimation L).currentDirection = .right) := by
  have hdir : (p.setMovementAnimation L).currentDirection = movementDirection p.velocity := rfl
  rw [hdir]
  have hy : abs p.velocity.y > abs p.velocity.x → p.velocity.y ≠ 0 := by
    intro h h0
    rw [h0, abs_zero] at h
    exact absurd h (not_lt.mpr (abs_nonneg _))
  refine ⟨?_, ?_, ?_, ?_, ?_, ?_, ?_, ?_⟩
  · rintro ⟨h1, h2⟩
    simp [movementDirection, h1, h2]
  · rintro ⟨h1, h2⟩
    simp [movementDirection, h1, h2, not_lt.mpr h2.le]
  · rintro ⟨h1, h2⟩
    simp [movementDirection, h1, h2]
  · rintro ⟨h1, h2⟩
    simp [movementDirection, h1, h2, not_lt.mpr h2.le]
  · rintro ⟨h1, h2⟩
    unfold movementDirection
    rw [if_neg h1, h2, if_neg (lt_irrefl _), if_neg (lt_irrefl _)]
  · intro h
    rcases lt_trichotomy p.velocity.y 0 with h1 | h1 | h1
    · exact Or.inr h1
    · exact absurd h1 (hy h)
    · exact Or.inl h1
  · constructor
    · intro h
      unfold movementDirection at h
      by_cases h1 : abs p.velocity.y > abs p.velocity.x
      · rw [if_pos h1] at h
        exfalso
        rcases lt_trichotomy p.velocity.y 0 with h2 | h2 | h2
        · rw [if_neg (not_lt.mpr h2.le), if_pos h2] at h
          cases h
        · exact hy h1 h2
        · rw [if_pos h2] at h
          cases h
      · rw [if_neg h1] at h
        rcases lt_trichotomy p.velocity.x 0 with h2 | h2 | h2
        · rw [if_neg (not_lt.mpr h2.le), if_pos h2] at h
          cases h
        · refine ⟨h2, ?_⟩
          rw [h2, abs_zero] at h1
          have := le_antisymm (not_lt.mp h1) (abs_nonneg _)
          exact abs_eq_zero.mp this
        · rw [if_pos h2] at h
          cases h
    · rintro ⟨h1, h2⟩
      simp [movementDirection, h1, h2]
  · intro h1 h2
    have hn : ¬ abs p.velocity.y > abs p.velocity.x := by rw [h1]; exact lt_irrefl _
    rcases lt_trichotomy p.velocity.x 0 with h3 | h3 | h3
    · left
      simp [movementDirection, hn, h3, not_lt.mpr h3.le]
    · exact absurd h3 h2
    · right
      simp [movementDirection, hn, h3]

/-- C13: `setMovementAnimation` replaces the animation state by the result of
`setAnimation` with the frames, repeat flag and duration of
`playerMovement[currentDirection]` when the new direction differs from
`previousDirection`, and leaves it untouched when they are equal; with a
library that counts `setAnimation` calls the count goes up by one exactly when
the direction differs; afterwards `previousDirection = currentDirection`. -/
theorem Player.setMovementAnimation_anim (L : Lib K A) (p : Player K A)
    (sqrt : K → K) (q : Player K Nat) :
    (movementDirection p.velocity ≠ p.previousDirection →
      (p.setMovementAnimation L).anim
        = L.setAnimation (playerMovement (movementDirection p.velocity) : Movement K).frames.1
            (playerMovement (movementDirection p.velocity) : Movement K).frames.2
            (playerMovement (movementDirection p.velocity) : Movement K).repeats
            (playerMovement (movementDirection p.velocity) : Movement K).duration p.anim) ∧
    (movementDirection p.velocity = p.previousDirection →
      (p.setMovementAnimation L).anim = p.anim) ∧
    ((q.setMovementAnimation (Lib.counting sqrt)).anim = q.anim + 1 ↔
      movementDirection q.velocity ≠ q.previousDirection) ∧
    ((q.setMovementAnimation (Lib.counting sqrt)).anim = q.anim ↔
      movementDirection q.velocity = q.previousDirection) ∧
    (p.setMovementAnimation L).currentDirection = movementDirection p.velocity ∧
    (p.setMovementAnimation L).previousDirection
      = (p.setMovementAnimation L).currentDirection := by
  refine ⟨?_, ?_, ?_, ?_, rfl, rfl⟩
  · intro h
    simp only [Player.setMovementAnimation]
    rw [if_pos h]
  · intro h
    simp only [Player.setMovementAnimation]
    rw [if_neg (not_not.mpr h)]
  · simp only [Player.setMovementAnimation, Lib.counting]
    by_cases h : movementDirection q.velocity = q.previousDirection
    · simp [h]
    · simp [h]
  · simp only [Player.setMovementAnimation, Lib.counting]
    by_cases h : movementDirection q.velocity = q.previousDirection
    · simp [h]
    · simp [h]

theorem constrainPosition_inside (width height : K) (position : Vec K)
    (hx0 : 0 ≤ position.x) (hx1 : position.x + width ≤ canvasWidth)
    (hy0 : 0 ≤ position.y) (hy1 : position.y + height ≤ canvasHeight) :
    constrainPosition width height position = position := by
  unfold constrainPosition
  rw [if_neg (not_lt.mpr hy0), if_neg (not_lt.mpr hy1), if_neg (not_lt.mpr hx0),
    if_neg (not_lt.mpr hx1)]

theorem constrainPosition_y (width height : K) (position : Vec K)
    (hh : 0 ≤ height ∧ height ≤ canvasHeight) :
    0 ≤ (constrainPosition width height position).y ∧
    (constrainPosition width height position).y + height ≤ canvasHeight := by
  obtain ⟨hh0, hh1⟩ := hh
  unfold constrainPosition
  by_cases h1 : position.y < 0
  · rw [if_pos h1]
    exact ⟨le_rfl, by simpa using hh1⟩
  · rw [if_neg h1]
    by_cases h2 : position.y + height > canvasHeight
    · rw [if_pos h2]
      exact ⟨by simpa using hh1, by simp⟩
    · rw [if_neg h2]
      have hy : 0 ≤ position.y ∧ position.y + height ≤ canvasHeight :=
        ⟨not_lt.mp h1, not_lt.mp h2⟩
      split_ifs <;> exact hy

theorem constrainPosition_x (width height : K) (position : Vec K)
    (hw : 0 ≤ width ∧ width ≤ canvasWidth)
    (hy0 : 0 ≤ position.y) (hy1 : position.y + height ≤ canvasHeight) :
    0 ≤ (constrainPosition width height position).x ∧
    (constrainPosition width height position).x + width ≤ canvasWidth := by
  obtain ⟨hw0, hw1⟩ := hw
  unfold constrainPosition
  rw [if_neg (not_lt.mpr hy0), if_neg (not_lt.mpr hy1)]
  by_cases h1 : position.x < 0
  · rw [if_pos h1]
    exact ⟨le_rfl, by simpa using hw1⟩
  · rw [if_neg h1]
    by_cases h2 : position.x + width > canvasWidth
    · rw [if_pos h2]
      exact ⟨by simpa using hw1, by simp⟩
    · rw [if_neg h2]
      exact ⟨not_lt.mp h1, not_lt.mp h2⟩

theorem constrainPosition_twice (width height : K) (position : Vec K)
    (hw : 0 ≤ width ∧ width ≤ canvasWidth) (hh : 0 ≤ height ∧ height ≤ canvasHeight) :
    0 ≤ (constrainPosition width height (constrainPosition width height position)).x ∧
    (constrainPosition width height (constrainPosition width height position)).x + width
      ≤ canvasWidth ∧
    0 ≤ (constrainPosition width height (constrainPosition width height position)).y ∧
    (constrainPosition width height (constrainPosition width height position)).y + height
      ≤ canvasHeight := by
  have h1 := constrainPosition_y width height position hh
  have h2 := constrainPosition_x width height (constrainPosition width height position) hw
    h1.1 h1.2
  have h3 := constrainPosition_y width height (constrainPosition width height position) hh
  exact ⟨h2.1, h2.2, h3.1, h3.2⟩

/-- C14: when the position is out of range on both axes, one call of
`constrainToCanvas` sets `y` to `0` (if `y < 0`) or else to
`canvasHeight - height`, and leaves `x` as it was, still out of range; and
for every position one call changes at most one coordinate. -/
theorem Player.constrainToCanvas_one_axis (p : Player K A)
    (hy : p.position.y < 0 ∨ p.position.y + p.height > canvasHeight)
    (hx : p.position.x < 0 ∨ p.position.x + p.width > canvasWidth) :
    (p.constrainToCanvas.position.y = if p.position.y < 0 then 0 else canvasHeight - p.height) ∧
    p.constrainToCanvas.position.x = p.position.x ∧
    (p.constrainToCanvas.position.x < 0 ∨
      p.constrainToCanvas.position.x + p.constrainToCanvas.width > canvasWidth) ∧
    ∀ r : Player K A, r.constrainToCanvas.position.x = r.position.x ∨
      r.constrainToCanvas.position.y = r.position.y := by
  have hxy : p.constrainToCanvas.position.y
        = (if p.position.y < 0 then 0 else canvasHeight - p.height) ∧
      p.constrainToCanvas.position.x = p.position.x := by
    simp only [Player.constrainToCanvas, constrainPosition]
    by_cases h1 : p.position.y < 0
    · simp [h1]
    · have h2 : p.position.y + p.height > canvasHeight := hy.resolve_left h1
      simp [h1, h2]
  refine ⟨hxy.1, hxy.2, ?_, ?_⟩
  · rw [hxy.2]
    exact hx
  · intro r
    simp only [Player.constrainToCanvas, constrainPosition]
    split_ifs <;> simp

/-- C14, witness: a 32 by 32 player at `(810, -5)`, beyond the right edge and
above the top edge. -/
theorem Player.constrainToCanvas_one_axis_witness :
    (playerAt (810 : ℚ) (-5) 32 32 []).constrainToCanvas.position.y = 0 ∧
    (playerAt (810 : ℚ) (-5) 32 32 []).constrainToCanvas.position.x = 810 := by
  have h := Player.constrainToCanvas_one_axis (playerAt (810 : ℚ) (-5) 32 32 [])
    (Or.inl (by norm_num [playerAt])) (Or.inr (by norm_num [playerAt, canvasWidth]))
  refine ⟨?_, ?_⟩
  · rw [h.1]; norm_num [playerAt]
  · rw [h.2.1]; rfl

/-- C15: for a player with `0 <= width <= canvasWidth` and
`0 <= height <= canvasHeight`, at any position, two calls of
`constrainToCanvas` put the player inside the canvas on both axes and a third
call changes nothing; and a player already inside the canvas is left
unchanged by a single call. -/
theorem Player.constrainToCanvas_twice (p : Player K A)
    (hw : 0 ≤ p.width ∧ p.width ≤ canvasWidth) (hh : 0 ≤ p.height ∧ p.height ≤ canvasHeight) :
    p.constrainToCanvas.constrainToCanvas.InCanvas ∧
    p.constrainToCanvas.constrainToCanvas.constrainToCanvas
      = p.constrainToCanvas.constrainToCanvas ∧
    ∀ r : Player K A, r.InCanvas → r.constrainToCanvas = r := by
  have hin : ∀ r : Player K A, r.InCanvas → r.constrainToCanvas = r := by
    intro r hr
    obtain ⟨h1, h2, h3, h4⟩ := hr
    unfold Player.constrainToCanvas
    rw [constrainPosition_inside r.width r.height r.position h1 h2 h3 h4]
  have h2 : p.constrainToCanvas.constrainToCanvas.InCanvas :=
    constrainPosition_twice p.width p.height p.position hw hh
  exact ⟨h2, hin _ h2, hin⟩

/-- C15, witness: a 32 by 32 player at `(810, -5)` ends at `(768, 0)` after
two calls. -/
theorem Player.constrainToCanvas_twice_witness :
    (playerAt (810 : ℚ) (-5) 32 32 []).constrainToCanvas.constrainToCanvas.InCanvas ∧
    (playerAt (810 : ℚ) (-5) 32 32 []).constrainToCanvas.constrainToCanvas.position
      = ⟨768, 0⟩ := by
  refine ⟨(Player.constrainToCanvas_twice (playerAt (810 : ℚ) (-5) 32 32 [])
    (by norm_num [playerAt, canvasWidth]) (by norm_num [playerAt, canvasHeight])).1, ?_⟩
  simp only [Player.constrainToCanvas, constrainPosition, playerAt, canvasWidth, canvasHeight]
  norm_num

end Clamp

/-! ## The coin loop -/

section Coins

variable {K A : Type}

/-- The coins that survive the coin loop: the ones not collected, each updated. -/
theorem updateCoins_take_drop (L : Lib K A) (deltaTime : K) :
    ∀ (n : Nat) (coins : List (Coin K A)), n ≤ coins.length →
      Game.updateCoins L deltaTime n coins
        = some ((((coins.take n).filter fun c => !c.collected).map (Coin.update L deltaTime))
            ++ coins.drop n) := by
  intro n
  induction n with
  | zero => intro coins _; simp [Game.updateCoins]
  | succ n ih =>
    intro coins hn
    have hlt : n < coins.length := hn
    have hget : coins[n]? = some coins[n] := List.getElem?_eq_getElem hlt
    have htake : coins.take (n + 1) = coins.take n ++ [coins[n]] := by
      rw [List.take_succ, hget]; rfl
    have hlen : (coins.take n).length = n := List.length_take_of_le hlt.le
    rw [Game.updateCoins, hget]
    simp only
    by_cases hc : coins[n].collected = true
    · rw [if_pos hc, ih _ (by rw [List.length_eraseIdx_of_lt hlt]; omega)]
      rw [List.eraseIdx_eq_take_drop_succ, htake]
      rw [List.take_left' hlen, List.drop_left' hlen, List.filter_append]
      simp [List.filter_cons, hc]
    · rw [if_neg hc, ih _ (by rw [List.length_set]; omega)]
      rw [List.set_eq_take_append_cons_drop, if_pos hlt, htake]
      rw [List.take_left' hlen, List.drop_left' hlen, List.filter_append]
      simp [List.filter_cons, hc]

theorem updateCoins_length (L : Lib K A) (deltaTime : K) (coins : List (Coin K A)) :
    Game.updateCoins L deltaTime coins.length coins
        = some ((coins.filter fun c => !c.collected).map (Coin.update L deltaTime)) := by
  rw [updateCoins_take_drop L deltaTime coins.length coins le_rfl]
  simp

/-- C4: the reverse-index loop of `Game.update` always terminates normally, and
leaves exactly the coins whose `collected` flag was false, in their original
order, each passed once through `Coin.update` with `dt`; none of the coins
left is a collected one and each kept its position and size. -/
theorem updateCoins_eq_filter_map (L : Lib K A) (deltaTime : K) (coins : List (Coin K A)) :
    Game.updateCoins L deltaTime coins.length coins
        = some ((coins.filter fun c => !c.collected).map (Coin.update L deltaTime)) ∧
    (∀ c ∈ (coins.filter fun c => !c.collected).map (Coin.update L deltaTime),
        c.collected = false) ∧
    ((coins.filter fun c => !c.collected).map (Coin.update L deltaTime)).map
        (fun c => (c.position, c.width, c.height, c.keys, c.collected))
      = (coins.filter fun c => !c.collected).map
        (fun c => (c.position, c.width, c.height, c.keys, c.collected)) := by
  refine ⟨updateCoins_length L deltaTime coins, ?_, ?_⟩
  · intro c hc
    rw [List.mem_map] at hc
    obtain ⟨c0, hc0, rfl⟩ := hc
    rw [List.mem_filter] at hc0
    simpa [Coin.update] using hc0.2
  · rw [List.map_map]
    rfl

theorem Game.checkCollisions_length (L : Lib K A) (g : Game K A) :
    (g.checkCollisions L).coins.length = g.coins.length := by
  simp [Game.checkCollisions]

theorem Game.spawnStep_length_le [LinearOrderedField K] (L : Lib K A) (r1 r2 r3 : K)
    (g : Game K A) (h : g.coins.length ≤ maxCoins) :
    (g.spawnStep L r1 r2 r3).coins.length ≤ maxCoins := by
  unfold Game.spawnStep
  split
  · next hc => simp [Game.spawnCoin]; omega
  · exact h

theorem Game.checkCoin_flagRaised (L : Lib K A) (player : Player K A) (n : Nat)
    (c : Coin K A) : Coin.FlagRaised c ((Game.checkCoin L player)^[n] c) := by
  induction n generalizing c with
  | zero => exact ⟨rfl, rfl, id⟩
  | succ n ih =>
    rw [Function.iterate_succ_apply]
    obtain ⟨h1, h2, h3⟩ := ih (Game.checkCoin L player c)
    have hc : Coin.FlagRaised c (Game.checkCoin L player c) := by
      unfold Game.checkCoin
      split
      · exact ⟨rfl, rfl, fun _ => rfl⟩
      · exact ⟨rfl, rfl, id⟩
    exact ⟨h1.trans hc.1, h2.trans hc.2.1, fun h => h3 (hc.2.2 h)⟩

theorem Game.checkCollisions_iterate (L : Lib K A) (n : Nat) (g : Game K A) :
    (Game.checkCollisions L)^[n] g
      = { g with coins := g.coins.map (Game.checkCoin L g.player)^[n] } := by
  induction n generalizing g with
  | zero => simp
  | succ n ih =>
    rw [Function.iterate_succ_apply, ih]
    simp [Game.checkCollisions, Function.comp_def]

/-- C5: after any number `n` of consecutive `checkCollisions` calls the player
is unchanged, the coin list has the same length, and at every index stands the
same coin as before (same position, size, hidden state and keys) whose
`collected` flag is still true if it was true before, whatever the overlap
test answers. -/
theorem Game.checkCollisions_keeps_collected (L : Lib K A) (n : Nat) (g : Game K A) :
    ((Game.checkCollisions L)^[n] g).player = g.player ∧
    ((Game.checkCollisions L)^[n] g).coins.length = g.coins.length ∧
    ∀ (i : Nat) (c : Coin K A), g.coins[i]? = some c →
      ∃ c', ((Game.checkCollisions L)^[n] g).coins[i]? = some c' ∧
        c'.toAnimatedObject = c.toAnimatedObject ∧ c'.keys = c.keys ∧
        (c.collected = true → c'.collected = true) := by
  rw [Game.checkCollisions_iterate]
  refine ⟨rfl, by simp, ?_⟩
  intro i c hc
  refine ⟨(Game.checkCoin L g.player)^[n] c, ?_, Game.checkCoin_flagRaised L g.player n c⟩
  simp [List.getElem?_map, hc]

theorem foldl_draw_length (coins : List (Coin K A)) (ctx : List (DrawCmd K A)) :
    (coins.foldl (fun ctx coin =>
        if !coin.collected then ctx ++ [DrawCmd.sprite coin.toAnimatedObject] else ctx)
      ctx).length = ctx.length + (coins.filter fun c => !c.collected).length := by
  induction coins generalizing ctx with
  | nil => simp
  | cons c coins ih =>
    rw [List.foldl_cons, ih]
    by_cases hc : c.collected = true
    · simp [hc]
    · simp [hc]
      omega

theorem take_succ_of_getElem? {α : Type} (l : List α) (k : Nat) (x : α)
    (h : l[k]? = some x) : l.take (k + 1) = l.take k ++ [x] := by
  rw [List.take_succ, h]
  rfl

end Coins

/-! ## Keys -/

section Keys

variable {K A : Type}

theorem eraseIdx_of_indexOf? (d : Direction) :
    ∀ (keys : List Direction) (index : Nat), keys.indexOf? d = some index →
      keys.eraseIdx index = keys.erase d := by
  intro keys
  induction keys with
  | nil => intro index h; simp at h
  | cons k keys ih =>
    intro index h
    rw [List.indexOf?_cons] at h
    by_cases hk : k = d
    · subst hk
      simp at h
      subst h
      simp
    · have hbeq : (k == d) = false := by simpa using hk
      rw [hbeq] at h
      simp only [Bool.false_eq_true, if_false, Option.map_eq_some'] at h
      obtain ⟨j, hj, rfl⟩ := h
      rw [List.eraseIdx_cons_succ, ih j hj, List.erase_cons_tail (by simpa using hk)]

theorem not_mem_of_indexOf? (d : Direction) (keys : List Direction)
    (h : keys.indexOf? d = none) : d ∉ keys := by
  rw [List.indexOf?_eq_none_iff] at h
  intro hmem
  exact h d hmem (by simp)

theorem Game.del_key_keys (d : Direction) (g : Game K A) :
    (g.del_key d).player.keys = g.player.keys.erase d := by
  unfold Game.del_key
  split
  · next index h => exact eraseIdx_of_indexOf? d _ index h
  · next h => exact (List.erase_of_not_mem (not_mem_of_indexOf? d _ h)).symm

theorem Game.del_key_of_not_mem (d : Direction) (g : Game K A) (h : d ∉ g.player.keys) :
    g.del_key d = g := by
  unfold Game.del_key
  split
  · next index hi =>
    exfalso
    have hlt : index < g.player.keys.length := by
      by_contra hge
      have h1 := eraseIdx_of_indexOf? d _ index hi
      rw [List.eraseIdx_of_length_le (not_lt.mp hge)] at h1
      have h2 : g.player.keys.indexOf? d = none := by
        rw [List.indexOf?_eq_none_iff]
        intro x hx hxd
        have : x = d := by simpa using hxd
        exact h (this ▸ hx)
      rw [h2] at hi
      cases hi
    have h2 : g.player.keys.indexOf? d = none := by
      rw [List.indexOf?_eq_none_iff]
      intro x hx hxd
      have : x = d := by simpa using hxd
      exact h (this ▸ hx)
    rw [h2] at hi
    cases hi
  · rfl

theorem Game.add_key_of_mem (d : Direction) (g : Game K A) (h : d ∈ g.player.keys) :
    g.add_key d = g := by
  unfold Game.add_key
  rw [if_neg]
  simpa using h

theorem Game.mem_add_key (d : Direction) (g : Game K A) : d ∈ (g.add_key d).player.keys := by
  unfold Game.add_key
  split
  · simp
  · next h => simpa using h

theorem Game.KeysReachable.keys_nodup (g : Game K A) (h : Game.KeysReachable g) :
    g.player.keys.Nodup := by
  induction h with
  | start g h0 => rw [h0]; exact List.nodup_nil
  | add_key direction g _ ih =>
    unfold Game.add_key
    split
    · next hc =>
      have hnot : direction ∉ g.player.keys := by simpa using hc
      simp only
      rw [List.nodup_append]
      refine ⟨ih, List.nodup_singleton _, ?_⟩
      intro a ha hb
      rw [List.mem_singleton] at hb
      exact hnot (hb ▸ ha)
    · exact ih
  | del_key direction g _ ih =>
    rw [Game.del_key_keys]
    exact ih.erase _

/-- C8: for every key list the game can hold (any state reached by `add_key`
and `del_key` calls from a game whose player holds no key) and every
direction `d`: `add_key(d)` with `d` already held and `del_key(d)` with `d`
not held return the game unchanged; hence `add_key(d)` twice is `add_key(d)`
once, and `del_key(d)` twice is `del_key(d)` once. -/
theorem Game.key_idempotent (d : Direction) (g : Game K A) (hg : Game.KeysReachable g) :
    (d ∈ g.player.keys → g.add_key d = g) ∧
    (d ∉ g.player.keys → g.del_key d = g) ∧
    (g.add_key d).add_key d = g.add_key d ∧
    (g.del_key d).del_key d = g.del_key d := by
  refine ⟨Game.add_key_of_mem d g, Game.del_key_of_not_mem d g,
    Game.add_key_of_mem d _ (Game.mem_add_key d g), ?_⟩
  apply Game.del_key_of_not_mem
  rw [Game.del_key_keys]
  exact (Game.KeysReachable.keys_nodup g hg).not_mem_erase

/-- C8, witness: `up` then `left` pressed from the empty key list, then `left`
pressed again or released twice. -/
theorem Game.key_idempotent_witness :
    ((((Game.mk (playerAt (400 : ℚ) 300 32 32 []) [] 0 0).add_key .up).add_key
        .left).add_key .left
      = ((Game.mk (playerAt (400 : ℚ) 300 32 32 []) [] 0 0).add_key .up).add_key .left) ∧
    ((((Game.mk (playerAt (400 : ℚ) 300 32 32 []) [] 0 0).add_key .up).add_key
        .left).del_key .left).del_key .left
      = (((Game.mk (playerAt (400 : ℚ) 300 32 32 []) [] 0 0).add_key .up).add_key
        .left).del_key .left :=
  ⟨(Game.key_idempotent .left
      (((Game.mk (playerAt (400 : ℚ) 300 32 32 []) [] 0 0).add_key .up).add_key .left)
      (Game.KeysReachable.add_key .left _
        (Game.KeysReachable.add_key .up _ (Game.KeysReachable.start _ rfl)))).1 (by decide),
   (Game.key_idempotent .left
      (((Game.mk (playerAt (400 : ℚ) 300 32 32 []) [] 0 0).add_key .up).add_key .left)
      (Game.KeysReachable.add_key .left _
        (Game.KeysReachable.add_key .up _ (Game.KeysReachable.start _ rfl)))).2.2.2⟩

/-- C9: in every state reachable by `add_key` and `del_key` from a game whose
player holds no key, no direction occurs twice in `player.keys`, and right
after `del_key(d)` the direction `d` is not in `player.keys`. -/
theorem Game.KeysReachable.nodup (g : Game K A) (h : Game.KeysReachable g) :
    g.player.keys.Nodup ∧ ∀ d : Direction, d ∉ (g.del_key d).player.keys := by
  have hn : g.player.keys.Nodup := by
    induction h with
    | start g h0 => rw [h0]; exact List.nodup_nil
    | add_key direction g _ ih =>
      unfold Game.add_key
      split
      · next hc =>
        have hnot : direction ∉ g.player.keys := by simpa using hc
        simp only
        rw [List.nodup_append]
        refine ⟨ih, List.nodup_singleton _, ?_⟩
        intro a ha hb
        rw [List.mem_singleton] at hb
        exact hnot (hb ▸ ha)
      · exact ih
    | del_key direction g _ ih =>
      rw [Game.del_key_keys]
      exact ih.erase _
  refine ⟨hn, fun d => ?_⟩
  rw [Game.del_key_keys]
  exact hn.not_mem_erase

/-- C9, witness: `right` then `up` pressed from the initial key list. -/
theorem Game.KeysReachable.nodup_witness :
    (((Game.mk (playerAt (400 : ℚ) 300 32 32 []) [] 0 0).add_key .right).add_key
        .up).player.keys.Nodup ∧
    ∀ d : Direction,
      d ∉ ((((Game.mk (playerAt (400 : ℚ) 300 32 32 []) [] 0 0).add_key .right).add_key
        .up).del_key d).player.keys :=
  Game.KeysReachable.nodup _
    (Game.KeysReachable.add_key .up _
      (Game.KeysReachable.add_key .right _ (Game.KeysReachable.start _ rfl)))

end Keys

/-! ## The game world -/

section World

variable {K A : Type} [LinearOrderedField K]

/-- `Game.update` always returns, with the stages applied in order. -/
theorem Game.update_eq (L : Lib K A) (deltaTime r1 r2 r3 : K) (g : Game K A) :
    Game.update L deltaTime r1 r2 r3 g
      = some (((g.afterCoins L deltaTime).spawnStep L r1 r2 r3).checkCollisions L) := by
  unfold Game.update
  simp only [updateCoins_length L deltaTime g.coins]
  rfl

/-- C2: whenever exactly `maxCoins` coins are left once the collected ones are
pruned, `Game.update` returns the pruned state with only the collision flags
refreshed: no coin is added, the list still has `maxCoins` coins and
`nextSpawnTime` is what it was, whatever `totalTime` and `nextSpawnTime` are. -/
theorem Game.update_no_spawn_at_cap (L : Lib K A) (deltaTime r1 r2 r3 : K) (g : Game K A)
    (hfull : (g.coins.filter fun c => !c.collected).length = maxCoins) :
    Game.update L deltaTime r1 r2 r3 g = some ((g.afterCoins L deltaTime).checkCollisions L) ∧
    ((g.afterCoins L deltaTime).checkCollisions L).coins.length = maxCoins ∧
    ((g.afterCoins L deltaTime).checkCollisions L).nextSpawnTime = g.nextSpawnTime := by
  have hlen : (g.afterCoins L deltaTime).coins.length = maxCoins := by
    rw [← hfull]; simp [Game.afterCoins]
  have hs : (g.afterCoins L deltaTime).spawnStep L r1 r2 r3 = g.afterCoins L deltaTime := by
    unfold Game.spawnStep
    rw [if_neg]
    rw [hlen]
    simp
  refine ⟨?_, ?_, rfl⟩
  · rw [Game.update_eq, hs]
  · rw [Game.checkCollisions_length, hlen]

/-- C2, witness: five live coins and one collected, `totalTime` far beyond
`nextSpawnTime`. -/
theorem Game.update_no_spawn_at_cap_witness :
    (Game.update (Lib.simple Real.sqrt) 16 0 0 0
        { player := playerAt 400 300 32 32 [], nextSpawnTime := 0, totalTime := 100000,
          coins := [coinAt 0 0 false, coinAt 50 0 false, coinAt 100 0 true,
            coinAt 150 0 false, coinAt 200 0 false, coinAt 250 0 false] }).map
      (fun g => (g.coins.length, g.nextSpawnTime)) = some (5, 0) := by
  have h := Game.update_no_spawn_at_cap (Lib.simple Real.sqrt) 16 0 0 0
    { player := playerAt 400 300 32 32 [], nextSpawnTime := 0, totalTime := 100000,
      coins := [coinAt 0 0 false, coinAt 50 0 false, coinAt 100 0 true,
        coinAt 150 0 false, coinAt 200 0 false, coinAt 250 0 false] } (by decide)
  rw [h.1, Option.map_some', h.2.1, h.2.2]
  rfl

theorem Game.afterCoins_length_le (L : Lib K A) (deltaTime : K) (g : Game K A) :
    (g.afterCoins L deltaTime).coins.length ≤ g.coins.length := by
  simp only [Game.afterCoins, List.length_map]
  exact List.length_filter_le _ _

theorem Game.update_length_le (L : Lib K A) (deltaTime r1 r2 r3 : K) (g : Game K A)
    (h : g.coins.length ≤ maxCoins) :
    ∃ g', Game.update L deltaTime r1 r2 r3 g = some g' ∧ g'.coins.length ≤ maxCoins := by
  refine ⟨_, Game.update_eq L deltaTime r1 r2 r3 g, ?_⟩
  rw [Game.checkCollisions_length]
  exact Game.spawnStep_length_le L r1 r2 r3 _
    (le_trans (Game.afterCoins_length_le L deltaTime g) h)

/-- C3: in every state reachable from `Game.initObjects` by `Game.update`
(any `dt`, any random draws, any overlap test), `add_key` and `del_key`, the
coin list has at most `maxCoins = 5` coins; and from such a state every
`Game.update` returns, again with at most `maxCoins` coins. -/
theorem Game.Reachable.coins_length_le (L : Lib K A) (g : Game K A)
    (h : Game.Reachable L g) :
    g.coins.length ≤ maxCoins ∧ maxCoins = 5 ∧
    ∀ deltaTime r1 r2 r3 : K,
      ∃ g', Game.update L deltaTime r1 r2 r3 g = some g' ∧ g'.coins.length ≤ maxCoins := by
  have hle : g.coins.length ≤ maxCoins := by
    induction h with
    | init => simp [Game.initObjects]
    | update deltaTime r1 r2 r3 g g' _ hstep ih =>
      obtain ⟨g'', h1, h2⟩ := Game.update_length_le L deltaTime r1 r2 r3 g ih
      rw [hstep] at h1
      cases h1
      exact h2
    | add_key direction g _ ih =>
      unfold Game.add_key
      split <;> exact ih
    | del_key direction g _ ih =>
      unfold Game.del_key
      split <;> exact ih
  exact ⟨hle, rfl, fun deltaTime r1 r2 r3 => Game.update_length_le L deltaTime r1 r2 r3 g hle⟩

/-- C3, witness: the state after pressing `right` and one update of 16 ms from
the initial state, in which the first coin has been spawned. -/
theorem Game.Reachable.coins_length_le_witness :
    ((((Game.initObjects (Lib.simple Real.sqrt)).add_key .right).afterCoins
        (Lib.simple Real.sqrt) 16).spawnStep (Lib.simple Real.sqrt) (1 / 2) (1 / 4) 0
        |>.checkCollisions (Lib.simple Real.sqrt)).coins.length ≤ maxCoins :=
  (Game.Reachable.coins_length_le (Lib.simple Real.sqrt) _
    (Game.Reachable.update 16 (1 / 2) (1 / 4) 0 _ _
      (Game.Reachable.add_key .right _ Game.Reachable.init)
      (Game.update_eq (Lib.simple Real.sqrt) 16 (1 / 2) (1 / 4) 0 _))).1

/-- C7: when `Game.update` finds the spawn condition true (time reached, fewer
than `maxCoins` live coins) and draws `r1 r2 r3` from `[0, 1)`, it returns a
state whose coin list is one longer than the pruned list and ends with a coin
at `(r1*(canvasWidth-32), r2*(canvasHeight-32))`, inside
`[0, canvasWidth-32] x [0, canvasHeight-32]`, and whose `nextSpawnTime` is
`totalTime + minSpawnTime + r3*(maxSpawnTime-minSpawnTime)`; with all draws
`0` the coin is at `(0, 0)` and `nextSpawnTime = totalTime + minSpawnTime`. -/
theorem Game.update_spawn (L : Lib K A) (deltaTime r1 r2 r3 : K) (g : Game K A)
    (hr1 : 0 ≤ r1 ∧ r1 < 1) (hr2 : 0 ≤ r2 ∧ r2 < 1) (hr3 : 0 ≤ r3 ∧ r3 < 1)
    (htime : g.totalTime + deltaTime ≥ g.nextSpawnTime)
    (hroom : (g.coins.filter fun c => !c.collected).length < maxCoins) :
    ∃ (g' : Game K A) (coin : Coin K A),
      Game.update L deltaTime r1 r2 r3 g = some g' ∧
      g'.coins.length = (g.coins.filter fun c => !c.collected).length + 1 ∧
      g'.coins.getLast? = some coin ∧
      coin.position = ⟨r1 * (canvasWidth - 32), r2 * (canvasHeight - 32)⟩ ∧
      (0 ≤ coin.position.x ∧ coin.position.x ≤ canvasWidth - 32) ∧
      (0 ≤ coin.position.y ∧ coin.position.y ≤ canvasHeight - 32) ∧
      g'.totalTime = g.totalTime + deltaTime ∧
      g'.nextSpawnTime = g'.totalTime + minSpawnTime + r3 * (maxSpawnTime - minSpawnTime) ∧
      (g'.totalTime + minSpawnTime ≤ g'.nextSpawnTime ∧
        g'.nextSpawnTime < g'.totalTime + maxSpawnTime) ∧
      (r1 = 0 → r2 = 0 → coin.position = ⟨0, 0⟩) ∧
      (r3 = 0 → g'.nextSpawnTime = g'.totalTime + minSpawnTime) := by
  have hlen : (g.afterCoins L deltaTime).coins.length
      = (g.coins.filter fun c => !c.collected).length := by
    simp [Game.afterCoins]
  have hcond : (g.afterCoins L deltaTime).totalTime ≥ (g.afterCoins L deltaTime).nextSpawnTime
      ∧ (g.afterCoins L deltaTime).coins.length < maxCoins := ⟨htime, by rw [hlen]; exact hroom⟩
  have hw : (0 : K) ≤ canvasWidth - 32 := by unfold canvasWidth; norm_num
  have hh : (0 : K) ≤ canvasHeight - 32 := by unfold canvasHeight; norm_num
  refine ⟨_, Game.checkCoin L (g.afterCoins L deltaTime).player
      { position := ⟨r1 * (canvasWidth - 32), r2 * (canvasHeight - 32)⟩
        width := 32
        height := 32
        anim := L.setAnimation 0 7 true animationDelay
          (L.setSprite "../assets/sprites/coin_gold.png" ⟨0, 0, 32, 32⟩
            (L.construct "gold" "coin" 8))
        keys := []
        collected := false },
    Game.update_eq L deltaTime r1 r2 r3 g, ?_, ?_, ?_, ?_, ?_, ?_, ?_, ?_, ?_, ?_⟩
  · rw [Game.checkCollisions_length, Game.spawnStep, if_pos hcond]
    simp [Game.spawnCoin, hlen]
  · rw [Game.spawnStep, if_pos hcond]
    simp [Game.checkCollisions, Game.spawnCoin]
  · unfold Game.checkCoin
    split <;> rfl
  · have hx : (Game.checkCoin L (g.afterCoins L deltaTime).player
      { position := ⟨r1 * (canvasWidth - 32), r2 * (canvasHeight - 32)⟩
        width := 32
        height := 32
        anim := L.setAnimation 0 7 true animationDelay
          (L.setSprite "../assets/sprites/coin_gold.png" ⟨0, 0, 32, 32⟩
            (L.construct "gold" "coin" 8))
        keys := []
        collected := false }).position.x = r1 * (canvasWidth - 32) := by
      unfold Game.checkCoin
      split <;> rfl
    rw [hx]
    exact ⟨mul_nonneg hr1.1 hw, by nlinarith [hr1.2]⟩
  · have hy : (Game.checkCoin L (g.afterCoins L deltaTime).player
      { position := ⟨r1 * (canvasWidth - 32), r2 * (canvasHeight - 32)⟩
        width := 32
        height := 32
        anim := L.setAnimation 0 7 true animationDelay
          (L.setSprite "../assets/sprites/coin_gold.png" ⟨0, 0, 32, 32⟩
            (L.construct "gold" "coin" 8))
        keys := []
        collected := false }).position.y = r2 * (canvasHeight - 32) := by
      unfold Game.checkCoin
      split <;> rfl
    rw [hy]
    exact ⟨mul_nonneg hr2.1 hh, by nlinarith [hr2.2]⟩
  · rw [Game.spawnStep, if_pos hcond]
    rfl
  · rw [Game.spawnStep, if_pos hcond]
    simp only [Game.checkCollisions, Game.spawnCoin, getRandomSpawnTime]
    rw [add_assoc]
  · rw [Game.spawnStep, if_pos hcond]
    simp only [Game.checkCollisions, Game.spawnCoin, getRandomSpawnTime, minSpawnTime,
      maxSpawnTime]
    constructor
    · nlinarith [hr3.1]
    · nlinarith [hr3.2]
  · intro h1 h2
    unfold Game.checkCoin
    split <;> simp [h1, h2]
  · intro h3
    rw [Game.spawnStep, if_pos hcond]
    simp [Game.checkCollisions, Game.spawnCoin, getRandomSpawnTime, h3]

/-- C7, witness: the first update of the initial state with a random source
that always returns 0. -/
theorem Game.update_spawn_witness :
    ∃ (g' : Game ℝ Unit) (coin : Coin ℝ Unit),
      Game.update (Lib.simple Real.sqrt) 0 0 0 0 (Game.initObjects (Lib.simple Real.sqrt))
        = some g' ∧
      g'.coins.length = 1 ∧ g'.coins.getLast? = some coin ∧ coin.position = ⟨0, 0⟩ ∧
      g'.nextSpawnTime = g'.totalTime + minSpawnTime := by
  obtain ⟨g', coin, h1, h2, h3, _, _, _, _, _, _, h9, h10⟩ :=
    Game.update_spawn (Lib.simple Real.sqrt) 0 0 0 0 (Game.initObjects (Lib.simple Real.sqrt))
      ⟨le_rfl, one_pos⟩ ⟨le_rfl, one_pos⟩ ⟨le_rfl, one_pos⟩
      (by simp [Game.initObjects]) (by simp [Game.initObjects, maxCoins])
  exact ⟨g', coin, h1, h2, h3, h9 rfl rfl, h10 rfl⟩

end World

/-! ## The frame driver -/

section Driver

variable {K A : Type} [LinearOrderedField K]

theorem drawScene_eq (L : Lib K A) (tick : Tick K) (s : Scene K A) :
    drawScene L tick s
      = some
          { oldTime := some tick.newTime
            game := ((s.game.afterCoins L
                (tick.newTime - (match s.oldTime with
                  | none => tick.newTime
                  | some t => t))).spawnStep L tick.r1 tick.r2 tick.r3).checkCollisions L
            ctx := s.game.draw (s.ctx ++ [DrawCmd.clearRect 0 0 canvasWidth canvasHeight])
            calls := s.calls ++ [Call.clearRect, Call.draw s.game,
              Call.update (tick.newTime - (match s.oldTime with
                  | none => tick.newTime
                  | some t => t)) s.game, Call.requestAnimationFrame] } := by
  unfold drawScene
  simp only [Game.update_eq]

theorem Game.draw_length (g : Game K A) (ctx : List (DrawCmd K A)) :
    (g.draw ctx).length = ctx.length + 1 + (g.coins.filter fun c => !c.collected).length + 1 := by
  unfold Game.draw
  simp only [List.length_append, foldl_draw_length, List.length_singleton]

/-- C11 (as amended): every `drawScene` call returns, having called, in this
order, `ctx.clearRect`, `Game.draw` and then `Game.update(dt)`, both on the
game state the tick started with, and `requestAnimationFrame`; so the frame
drawn in a tick is the drawing of the state before that tick's update, and
the updated state is what the next tick draws. -/
theorem drawScene_draws_before_update (L : Lib K A) (tick : Tick K) (s : Scene K A) :
    ∃ (s' : Scene K A) (deltaTime : K),
      drawScene L tick s = some s' ∧
      s'.calls = s.calls ++ [Call.clearRect, Call.draw s.game,
        Call.update deltaTime s.game, Call.requestAnimationFrame] ∧
      s'.ctx = s.game.draw (s.ctx ++ [DrawCmd.clearRect 0 0 canvasWidth canvasHeight]) ∧
      Game.update L deltaTime tick.r1 tick.r2 tick.r3 s.game = some s'.game ∧
      ∀ (tick2 : Tick K), ∃ s2 : Scene K A, drawScene L tick2 s' = some s2 ∧
        s2.ctx = s'.game.draw (s'.ctx ++ [DrawCmd.clearRect 0 0 canvasWidth canvasHeight]) := by
  refine ⟨_, _, drawScene_eq L tick s, rfl, rfl, Game.update_eq L _ _ _ _ _, ?_⟩
  intro tick2
  exact ⟨_, drawScene_eq L tick2 _, rfl⟩

/-- C11, counterexample: the first tick `drawScene(0)` of `main`, with all
random draws 0.  `Game.draw` is logged before `Game.update`; the frame drawn
has three commands (two clears and the player) while drawing the state
produced by this tick's update, which holds the coin just spawned, gives
four on a freshly cleared canvas: the frame does not show the updated
state. -/
theorem drawScene_draws_before_update_counterexample :
    ∃ s' : Scene ℝ Unit,
      drawScene (Lib.simple Real.sqrt) ⟨0, 0, 0, 0⟩ (Scene.initial (Lib.simple Real.sqrt))
        = some s' ∧
      s'.calls = [Call.clearRect, Call.draw (Game.initObjects (Lib.simple Real.sqrt)),
        Call.update 0 (Game.initObjects (Lib.simple Real.sqrt)), Call.requestAnimationFrame] ∧
      s'.game.coins.length = 1 ∧
      s'.ctx.length = 3 ∧
      (s'.game.draw [DrawCmd.clearRect 0 0 canvasWidth canvasHeight]).length = 4 ∧
      s'.ctx ≠ s'.game.draw [DrawCmd.clearRect 0 0 canvasWidth canvasHeight] := by
  have hcoins : ((((Game.initObjects (Lib.simple Real.sqrt)).afterCoins (Lib.simple Real.sqrt)
      ((0 : ℝ) - 0)).spawnStep (Lib.simple Real.sqrt) 0 0 0).checkCollisions
      (Lib.simple Real.sqrt)).coins.map (fun c => c.collected) = [false] := by
    simp [Game.checkCollisions, Game.spawnStep, Game.afterCoins, Game.initObjects,
      Game.spawnCoin, Game.checkCoin, Lib.simple, maxCoins]
  have hlen := congrArg List.length hcoins
  have hfilter : (((((Game.initObjects (Lib.simple Real.sqrt)).afterCoins (Lib.simple Real.sqrt)
      ((0 : ℝ) - 0)).spawnStep (Lib.simple Real.sqrt) 0 0 0).checkCollisions
      (Lib.simple Real.sqrt)).coins.filter fun c => !c.collected).length = 1 := by
    simp [Game.checkCollisions, Game.spawnStep, Game.afterCoins, Game.initObjects,
      Game.spawnCoin, Game.checkCoin, Lib.simple, maxCoins]
  have h3 : ((Game.initObjects (Lib.simple Real.sqrt) : Game ℝ Unit).draw
      (([] : List (DrawCmd ℝ Unit)) ++ [DrawCmd.clearRect 0 0 canvasWidth canvasHeight])).length
      = 3 := by
    rw [Game.draw_length]
    simp [Game.initObjects]
  have hs : drawScene (Lib.simple Real.sqrt) ⟨0, 0, 0, 0⟩
      (Scene.initial (Lib.simple Real.sqrt))
      = some
          { oldTime := some (0 : ℝ)
            game := (((Game.initObjects (Lib.simple Real.sqrt)).afterCoins
              (Lib.simple Real.sqrt) ((0 : ℝ) - 0)).spawnStep (Lib.simple Real.sqrt)
                0 0 0).checkCollisions (Lib.simple Real.sqrt)
            ctx := (Game.initObjects (Lib.simple Real.sqrt)).draw
              ([] ++ [DrawCmd.clearRect 0 0 canvasWidth canvasHeight])
            calls := [] ++ [Call.clearRect, Call.draw (Game.initObjects (Lib.simple Real.sqrt)),
              Call.update ((0 : ℝ) - 0) (Game.initObjects (Lib.simple Real.sqrt)),
              Call.requestAnimationFrame] } := by
    rw [drawScene_eq]
    rfl
  refine ⟨_, hs, ?_, ?_, h3, ?_, ?_⟩
  · simp
  · simpa using hlen
  · rw [Game.draw_length, hfilter]
    rfl
  · intro h
    have h4 := congrArg List.length h
    dsimp only at h4
    rw [h3, Game.draw_length, hfilter] at h4
    simp at h4

theorem drawSceneRun_deltaTimes_from (L : Lib K A) :
    ∀ (ticks : List (Tick K)) (s : Scene K A),
      ∃ s' : Scene K A, drawSceneRun L ticks s = some s' ∧
        s'.deltaTimes
          = s.deltaTimes ++ deltaTimesFrom s.oldTime (ticks.map fun tick => tick.newTime) := by
  intro ticks
  induction ticks with
  | nil => intro s; exact ⟨s, rfl, by simp [deltaTimesFrom]⟩
  | cons tick ticks ih =>
    intro s
    obtain ⟨s', h1, h2⟩ := ih _
    refine ⟨s', ?_, ?_⟩
    · rw [drawSceneRun, drawScene_eq]
      exact h1
    · rw [h2]
      cases hold : s.oldTime <;>
        simp [Scene.deltaTimes, Call.deltaTime?, deltaTimesFrom, List.filterMap_append]

theorem deltaTimesFrom_length (old : Option K) (ts : List K) :
    (deltaTimesFrom old ts).length = ts.length := by
  induction ts generalizing old with
  | nil => cases old <;> rfl
  | cons t ts ih => cases old <;> simp [deltaTimesFrom, ih]

theorem deltaTimesFrom_getElem? :
    ∀ (ts : List K) (old : K) (k : Nat) (a b : K),
      (old :: ts)[k]? = some a → ts[k]? = some b →
        (deltaTimesFrom (some old) ts)[k]? = some (b - a) := by
  intro ts
  induction ts with
  | nil => intro old k a b _ hb; simp at hb
  | cons t ts ih =>
    intro old k a b ha hb
    cases k with
    | zero =>
      simp at ha hb
      simp [deltaTimesFrom, ha, hb]
    | succ k =>
      rw [List.getElem?_cons_succ] at ha hb
      rw [deltaTimesFrom, List.getElem?_cons_succ]
      exact ih t k a b ha hb

theorem deltaTimesFrom_sum :
    ∀ (ts : List K) (old : K) (k : Nat) (b : K), ts[k]? = some b →
      ((deltaTimesFrom (some old) ts).take (k + 1)).sum = b - old := by
  intro ts
  induction ts with
  | nil => intro old k b hb; simp at hb
  | cons t ts ih =>
    intro old k b hb
    cases k with
    | zero =>
      simp at hb
      simp [deltaTimesFrom, hb]
    | succ k =>
      rw [List.getElem?_cons_succ] at hb
      rw [deltaTimesFrom, List.take_succ_cons, List.sum_cons, ih t k b hb]
      ring

theorem deltaTimesFrom_nonneg :
    ∀ (ts : List K) (old : K), List.Chain (fun a b => a ≤ b) old ts →
      ∀ dt ∈ deltaTimesFrom (some old) ts, 0 ≤ dt := by
  intro ts
  induction ts with
  | nil => intro old _ dt hdt; simp [deltaTimesFrom] at hdt
  | cons t ts ih =>
    intro old hchain dt hdt
    rw [List.chain_cons] at hchain
    rw [deltaTimesFrom, List.mem_cons] at hdt
    rcases hdt with h | h
    · rw [h]; exact sub_nonneg.mpr hchain.1
    · exact ih t hchain.2 dt h

theorem deltaTimesFrom_sum_all :
    ∀ (ts : List K) (old b : K), (old :: ts).getLast? = some b →
      (deltaTimesFrom (some old) ts).sum = b - old := by
  intro ts
  induction ts with
  | nil =>
    intro old b hb
    simp at hb
    simp [deltaTimesFrom, hb]
  | cons t ts ih =>
    intro old b hb
    rw [List.getLast?_cons_cons] at hb
    rw [deltaTimesFrom, List.sum_cons, ih t b hb]
    ring

theorem drawSceneRun_append (L : Lib K A) :
    ∀ (l1 l2 : List (Tick K)) (s : Scene K A),
      drawSceneRun L (l1 ++ l2) s = (drawSceneRun L l1 s).bind (drawSceneRun L l2) := by
  intro l1
  induction l1 with
  | nil => intro l2 s; rfl
  | cons tick l1 ih =>
    intro l2 s
    rw [List.cons_append, drawSceneRun, drawSceneRun, drawScene_eq]
    exact ih l2 _

theorem drawSceneRun_totalTime (L : Lib K A) :
    ∀ (ticks : List (Tick K)) (s s' : Scene K A), drawSceneRun L ticks s = some s' →
      s'.game.totalTime
        = s.game.totalTime
          + (deltaTimesFrom s.oldTime (ticks.map fun tick => tick.newTime)).sum := by
  intro ticks
  induction ticks with
  | nil =>
    intro s s' h
    rw [drawSceneRun] at h
    cases h
    simp [deltaTimesFrom]
  | cons tick ticks ih =>
    intro s s' h
    rw [drawSceneRun, drawScene_eq] at h
    rw [ih _ s' h]
    cases hold : s.oldTime with
    | none =>
      simp only [List.map_cons, deltaTimesFrom, List.sum_cons]
      have h1 : ∀ d : K, (((s.game.afterCoins L d).spawnStep L tick.r1 tick.r2
          tick.r3).checkCollisions L).totalTime = s.game.totalTime + d := by
        intro d
        unfold Game.spawnStep
        split <;> rfl
      rw [h1]
      ring
    | some old =>
      simp only [List.map_cons, deltaTimesFrom, List.sum_cons]
      have h1 : ∀ d : K, (((s.game.afterCoins L d).spawnStep L tick.r1 tick.r2
          tick.r3).checkCollisions L).totalTime = s.game.totalTime + d := by
        intro d
        unfold Game.spawnStep
        split <;> rfl
      rw [h1]
      ring

theorem drawSceneRun_snoc (L : Lib K A) (ticks : List (Tick K)) (tick : Tick K)
    (s sk sk1 : Scene K A) (hsk : drawSceneRun L ticks s = some sk)
    (hsk1 : drawSceneRun L (ticks ++ [tick]) s = some sk1) :
    sk1.oldTime = some tick.newTime ∧
    Game.update L
        (tick.newTime - (match sk.oldTime with
          | none => tick.newTime
          | some t => t)) tick.r1 tick.r2 tick.r3 sk.game
      = some sk1.game := by
  rw [drawSceneRun_append, hsk] at hsk1
  simp only [Option.some_bind, drawSceneRun, drawScene_eq, Option.some.injEq] at hsk1
  rw [← hsk1, Game.update_eq]
  exact ⟨rfl, rfl⟩

theorem deltaTimesDouble_eq_of_exact :
    ∀ (ts : List ℚ) (old : Option ℚ),
      (∀ q ∈ deltaTimesFrom old ts, roundDouble q = q) →
        deltaTimesDouble old ts = deltaTimesFrom old ts := by
  intro ts
  induction ts with
  | nil => intro old _; cases old <;> rfl
  | cons t ts ih =>
    intro old h
    cases old with
    | none =>
      simp only [deltaTimesFrom, List.mem_cons, forall_eq_or_imp] at h
      rw [deltaTimesDouble, deltaTimesFrom, h.1, ih (some t) h.2]
    | some a =>
      simp only [deltaTimesFrom, List.mem_cons, forall_eq_or_imp] at h
      rw [deltaTimesDouble, deltaTimesFrom, h.1, ih (some t) h.2]

/-- C12 (as amended): with numbers taken as exact (an ordered field), starting
with `oldTime` undefined, the run of `drawScene` over any list of ticks
returns; the first call hands `dt = 0` to `Game.update` and call `k + 1` hands
it `t_(k+1) - t_k`, the game after each call being the result of that
`Game.update` on the game before it; `totalTime` grows over the run by
`t_last - t_0`; the logged `dt` values are these same values, their sum up to
call `k` is `t_k - t_0`, and for non-decreasing timestamps every `dt` is
non-negative. -/
theorem drawSceneRun_deltaTimes (L : Lib K A) (ticks : List (Tick K)) (s : Scene K A)
    (hold : s.oldTime = none) (hcalls : s.calls = []) :
    ∃ s' : Scene K A, drawSceneRun L ticks s = some s' ∧
      (∀ tick : Tick K, ticks[0]? = some tick →
        ∃ s1 : Scene K A, drawSceneRun L (ticks.take 1) s = some s1 ∧
          Game.update L 0 tick.r1 tick.r2 tick.r3 s.game = some s1.game) ∧
      (∀ (k : Nat) (prev tick : Tick K), ticks[k]? = some prev → ticks[k + 1]? = some tick →
        ∃ sk sk1 : Scene K A, drawSceneRun L (ticks.take (k + 1)) s = some sk ∧
          drawSceneRun L (ticks.take (k + 2)) s = some sk1 ∧
          Game.update L (tick.newTime - prev.newTime) tick.r1 tick.r2 tick.r3 sk.game
            = some sk1.game) ∧
      (∀ t0 b : K, (ticks.map fun tick => tick.newTime)[0]? = some t0 →
        (ticks.map fun tick => tick.newTime).getLast? = some b →
        s'.game.totalTime = s.game.totalTime + (b - t0)) ∧
      s'.deltaTimes.length = ticks.length ∧
      (∀ t0 : K, (ticks.map fun tick => tick.newTime)[0]? = some t0 →
        s'.deltaTimes[0]? = some 0) ∧
      (∀ (k : Nat) (a b : K), (ticks.map fun tick => tick.newTime)[k]? = some a →
        (ticks.map fun tick => tick.newTime)[k + 1]? = some b →
        s'.deltaTimes[k + 1]? = some (b - a)) ∧
      (∀ (k : Nat) (t0 b : K), (ticks.map fun tick => tick.newTime)[0]? = some t0 →
        (ticks.map fun tick => tick.newTime)[k]? = some b →
        (s'.deltaTimes.take (k + 1)).sum = b - t0) ∧
      (List.Chain' (fun a b => a ≤ b) (ticks.map fun tick => tick.newTime) →
        ∀ dt ∈ s'.deltaTimes, 0 ≤ dt) := by
  obtain ⟨s', h1, h2⟩ := drawSceneRun_deltaTimes_from L ticks s
  have h0 : s.deltaTimes = [] := by simp [Scene.deltaTimes, hcalls]
  have htot := drawSceneRun_totalTime L ticks s s' h1
  rw [hold] at htot
  rw [hold, h0, List.nil_append] at h2
  refine ⟨s', h1, ?_, ?_, ?_, ?_, ?_, ?_, ?_, ?_⟩
  · intro tick htick
    have htake : ticks.take 1 = [] ++ [tick] := by
      rw [take_succ_of_getElem? ticks 0 tick htick]
      simp
    obtain ⟨s1, hs1, _⟩ := drawSceneRun_deltaTimes_from L (ticks.take 1) s
    refine ⟨s1, hs1, ?_⟩
    rw [htake] at hs1
    have h := (drawSceneRun_snoc L [] tick s s s1 rfl hs1).2
    rw [hold] at h
    have h' : Game.update L (tick.newTime - tick.newTime) tick.r1 tick.r2 tick.r3 s.game
        = some s1.game := h
    rw [sub_self] at h'
    exact h'
  · intro k prev tick hprev htick
    obtain ⟨sk0, hsk0, _⟩ := drawSceneRun_deltaTimes_from L (ticks.take k) s
    obtain ⟨sk, hsk, _⟩ := drawSceneRun_deltaTimes_from L (ticks.take (k + 1)) s
    obtain ⟨sk1, hsk1, _⟩ := drawSceneRun_deltaTimes_from L (ticks.take (k + 2)) s
    have hk1 : ticks.take (k + 1) = ticks.take k ++ [prev] :=
      take_succ_of_getElem? ticks k prev hprev
    have hk2 : ticks.take (k + 2) = ticks.take (k + 1) ++ [tick] :=
      take_succ_of_getElem? ticks (k + 1) tick htick
    have hskold : sk.oldTime = some prev.newTime := by
      have hsk' := hsk
      rw [hk1] at hsk'
      exact (drawSceneRun_snoc L _ prev s sk0 sk hsk0 hsk').1
    refine ⟨sk, sk1, hsk, hsk1, ?_⟩
    have hsk1' := hsk1
    rw [hk2] at hsk1'
    have h := (drawSceneRun_snoc L _ tick s sk sk1 hsk hsk1').2
    rw [hskold] at h
    exact h
  · intro t0 b ht0 hb
    rw [htot]
    cases hts : (ticks.map fun tick => tick.newTime) with
    | nil => rw [hts] at ht0; simp at ht0
    | cons t ts =>
      rw [hts] at ht0 hb
      simp at ht0
      subst ht0
      rw [deltaTimesFrom, List.sum_cons, deltaTimesFrom_sum_all ts t b hb]
      ring
  · rw [h2, deltaTimesFrom_length, List.length_map]
  · intro t0 ht0
    rw [h2]
    cases hts : (ticks.map fun tick => tick.newTime) with
    | nil => rw [hts] at ht0; simp at ht0
    | cons t ts => simp [deltaTimesFrom]
  · intro k a b ha hb
    rw [h2]
    cases hts : (ticks.map fun tick => tick.newTime) with
    | nil => rw [hts] at ha; simp at ha
    | cons t ts =>
      rw [hts] at ha hb
      rw [List.getElem?_cons_succ] at hb
      rw [deltaTimesFrom, List.getElem?_cons_succ]
      exact deltaTimesFrom_getElem? ts t k a b ha hb
  · intro k t0 b ht0 hb
    rw [h2]
    cases hts : (ticks.map fun tick => tick.newTime) with
    | nil => rw [hts] at ht0; simp at ht0
    | cons t ts =>
      rw [hts] at ht0 hb
      simp at ht0
      subst ht0
      cases k with
      | zero =>
        simp at hb
        simp [deltaTimesFrom, hb]
      | succ k =>
        rw [List.getElem?_cons_succ] at hb
        rw [deltaTimesFrom, List.take_succ_cons, List.sum_cons,
          deltaTimesFrom_sum ts t k b hb]
        ring
  · intro hchain dt hdt
    rw [h2] at hdt
    cases hts : (ticks.map fun tick => tick.newTime) with
    | nil => rw [hts] at hdt; simp [deltaTimesFrom] at hdt
    | cons t ts =>
      rw [hts] at hdt hchain
      rw [deltaTimesFrom, List.mem_cons] at hdt
      rcases hdt with h | h
      · rw [h]; simp
      · exact deltaTimesFrom_nonneg ts t hchain dt h

/-- C12, witness: `main` calls `drawScene(0)`, then frames arrive at 16 and
at 33 ms; the values passed to `Game.update` are `0`, `16` and `17`, and
`totalTime` ends at 33. -/
theorem drawSceneRun_deltaTimes_witness :
    ∃ s' : Scene ℝ Unit,
      drawSceneRun (Lib.simple Real.sqrt) [⟨0, 0, 0, 0⟩, ⟨16, 0, 0, 0⟩, ⟨33, 0, 0, 0⟩]
        (Scene.initial (Lib.simple Real.sqrt)) = some s' ∧
      s'.game.totalTime = 0 + (33 - 0) ∧
      s'.deltaTimes.length = 3 ∧ s'.deltaTimes[0]? = some 0 ∧
      s'.deltaTimes[1]? = some (16 - 0) ∧ s'.deltaTimes[2]? = some (33 - 16) ∧
      (s'.deltaTimes.take 3).sum = 33 - 0 := by
  obtain ⟨s', h1, _, _, htot, h2, h3, h4, h5, _⟩ :=
    drawSceneRun_deltaTimes (Lib.simple Real.sqrt)
      [⟨0, 0, 0, 0⟩, ⟨16, 0, 0, 0⟩, ⟨33, 0, 0, 0⟩] (Scene.initial (Lib.simple Real.sqrt)) rfl rfl
  exact ⟨s', h1, htot 0 33 rfl rfl, h2, h3 0 rfl, h4 0 0 16 rfl rfl, h4 1 16 33 rfl rfl,
    h5 2 0 33 rfl rfl⟩

/-- C12, counterexample: frames at 0, 16.7 and 50.1 ms in double arithmetic.
The values passed to `Game.update` are `0`, `16.7` and the double
`33.400000000000006`; their exact sum lies above `t_2 - t_0 = 50.1`, and
accumulated in doubles, as `totalTime` is, it is the double
`50.10000000000001`, not `50.1`. -/
theorem drawSceneRun_deltaTimes_counterexample :
    deltaTimesDouble none [0, roundDouble (167 / 10), roundDouble (501 / 10)]
      = [0, roundDouble (167 / 10), 1175158027766989 / 35184372088832] ∧
    (0 ≤ roundDouble (167 / 10) ∧ roundDouble (167 / 10) ≤ roundDouble (501 / 10)) ∧
    roundDouble (501 / 10) - 0 = 14101896333203866 / 281474976710656 ∧
    (deltaTimesDouble none [0, roundDouble (167 / 10), roundDouble (501 / 10)]).sum
      = 14101896333203867 / 281474976710656 ∧
    totalTimeDouble (deltaTimesDouble none [0, roundDouble (167 / 10), roundDouble (501 / 10)])
      = 14101896333203868 / 281474976710656 ∧
    (deltaTimesDouble none [0, roundDouble (167 / 10), roundDouble (501 / 10)]).sum
      ≠ roundDouble (501 / 10) - 0 ∧
    totalTimeDouble (deltaTimesDouble none [0, roundDouble (167 / 10), roundDouble (501 / 10)])
      ≠ roundDouble (501 / 10) - 0 := by
  decide!

end Driver

end AnimatedSprites
